import Mathlib

/-!
Shallow embedding of `src/advanced-vector/vector.h` (template classes
`RawMemory<T>` and `Vector<T>`).

A `Vector<T>` owns a `RawMemory<T>` buffer (`data_`) of `capacity_` element
slots and a count `size_` of live, constructed elements occupying slots
`[0, size_)`.  We model the observable state as the list of live element
values together with the capacity of the owned buffer.  Machine integers
(`size_t`) are modelled as `Nat`: all the sizes involved are small and no
operation in the source relies on unsigned wrap-around.

Success-path operations are embedded as pure functions on this state,
following the source's branch structure.  Where a claim is about exception
safety, resource accounting, or raw-pointer behaviour, the relevant source
path is embedded as an instrumented function (failure oracles for throwing
element operations, counters for copies / destructions / allocations,
offsets for deallocation calls); each such definition documents the exact
source lines it follows.
-/

namespace AdvVector

/-- Observable state of a `Vector<T>`: the values of the live elements in
slots `[0, size_)` of the owned buffer (so `Size` is `elems.length`), and
`cap`, the `capacity_` of the owned `RawMemory<T>`. -/
structure Vector (α : Type) where
  elems : List α
  cap : Nat
  deriving DecidableEq, Repr

variable {α : Type}

/-- `Vector() = default`: `size_ = 0`, default `RawMemory` with
`buffer_ = nullptr`, `capacity_ = 0`. -/
def Vector.empty : Vector α := ⟨[], 0⟩

/-- `size_t Size() const noexcept { return size_; }` -/
def Vector.Size (v : Vector α) : Nat := v.elems.length

/-- `size_t Capacity() const noexcept { return data_.Capacity(); }` -/
def Vector.Capacity (v : Vector α) : Nat := v.cap

/-- `explicit Vector(size_t size)`: allocates `RawMemory(size)` and
default-constructs `size` elements in place
(`uninitialized_value_construct_n`). -/
def Vector.Sized [Inhabited α] (n : Nat) : Vector α :=
  ⟨List.replicate n default, n⟩

/-- `Vector(const Vector& other)`: allocates `RawMemory(other.size_)` —
capacity of the copy is the source's *size*, not its capacity — and
copy-constructs the `other.size_` elements (`uninitialized_copy_n`). -/
def Vector.CopyCtor (v : Vector α) : Vector α :=
  ⟨v.elems, v.elems.length⟩

/-- `Vector(Vector&& other) noexcept`: `data_(move(other.data_))` steals the
buffer (the source's `RawMemory` is left with `buffer_ = nullptr`,
`capacity_ = 0`) and `size_(exchange(other.size_, 0))` zeroes the source's
size.  Returns `(the new vector, the moved-from source, the number of
element copy operations performed)` — the construction only transfers the
buffer pointer, so that count is 0. -/
def Vector.MoveCtor (v : Vector α) : Vector α × Vector α × Nat :=
  (⟨v.elems, v.cap⟩, ⟨[], 0⟩, 0)

/-- `Vector& operator=(Vector&& rhs) noexcept { Swap(rhs); return *this; }`:
exchanges buffers and sizes with `rhs`.  Returns `(the target after, the
source `rhs` after, the number of element copy operations performed)`; the
swap exchanges pointers and sizes only, so that count is 0.  Note the
moved-from source is left holding the target's previous buffer and size. -/
def Vector.MoveAssign (t s : Vector α) : Vector α × Vector α × Nat :=
  (⟨s.elems, s.cap⟩, ⟨t.elems, t.cap⟩, 0)

/-- `void Reserve(size_t new_capacity)`: early-returns when
`new_capacity <= Capacity()`; otherwise allocates `RawMemory(new_capacity)`,
transfers the `size_` elements into it (`uninitialized_move_n` when the
element type is nothrow-move-constructible or not copyable, otherwise
`uninitialized_copy_n` — identical live values either way), destroys the
originals and swaps buffers.  The second component counts allocations
performed: 0 on the early return, 1 on the growth path. -/
def Vector.Reserve (v : Vector α) (n : Nat) : Vector α × Nat :=
  if n ≤ v.cap then (v, 0)
  else (⟨v.elems, n⟩, 1)

/-- `void Resize(size_t new_size)`: when `new_size < size_` destroys the
`size_ - new_size` trailing elements (`destroy_n(data_ + new_size, ...)`)
leaving the buffer untouched; otherwise calls `Reserve(new_size)` then
default-constructs `new_size - size_` elements at the end
(`uninitialized_value_construct_n`).  Finally `size_ = new_size`.  The
second component counts element destructions performed. -/
def Vector.Resize [Inhabited α] (v : Vector α) (n : Nat) : Vector α × Nat :=
  if n < v.elems.length then
    (⟨v.elems.take n, v.cap⟩, v.elems.length - n)
  else
    (⟨(v.Reserve n).1.elems ++ List.replicate (n - v.elems.length) default,
      (v.Reserve n).1.cap⟩, 0)

/-- `void PopBack()`: `destroy_at(data_ + size_ - 1); --size_;`.
Precondition (undefined behaviour otherwise): `size_ > 0`. -/
def Vector.PopBack (v : Vector α) : Vector α :=
  ⟨v.elems.dropLast, v.cap⟩

/-- `void PushBack(Type&& value)` (lines 277-302): when
`Capacity() <= size_`, allocates `RawMemory(size_ == 0 ? 1 : size_ * 2)`,
constructs the new element at slot `size_` of the new buffer, transfers the
old elements into slots `[0, size_)`, destroys the originals and swaps;
otherwise constructs the new element in place at `data_ + size_`.  Then
`size_++`. -/
def Vector.PushBack (v : Vector α) (x : α) : Vector α :=
  if v.cap ≤ v.elems.length then
    ⟨v.elems ++ [x], if v.elems.length = 0 then 1 else v.elems.length * 2⟩
  else
    ⟨v.elems ++ [x], v.cap⟩

/-- `T& EmplaceBack(Args&&... args)` (lines 304-329): identical control flow
to `PushBack` — growth to `size_ == 0 ? 1 : size_ * 2` slots with the new
element constructed at slot `size_` before the transfer, in-place
construction at `data_ + size_` otherwise — and returns a reference to the
new element (`data_[size_++]`).  The argument is the element value the
forwarded `args...` construct. -/
def Vector.EmplaceBack (v : Vector α) (x : α) : Vector α × α :=
  (if v.cap ≤ v.elems.length then
    ⟨v.elems ++ [x], if v.elems.length = 0 then 1 else v.elems.length * 2⟩
  else
    ⟨v.elems ++ [x], v.cap⟩, x)

/-- `iterator Emplace(const_iterator pos, Args&&... args)` (lines 331-379),
success paths; `p` is `position = pos - begin()`, the argument `x` the value
the forwarded `args...` construct.  Precondition: `p ≤ size_`.
* Growth path (`Capacity() <= size_`): allocates
  `RawMemory(size_ == 0 ? 1 : size_ * 2)`, constructs `x` at slot `p` of the
  new buffer, transfers old elements `[0, p)` to slots `[0, p)` and
  `[p, size_)` to slots `[p+1, size_+1)`, destroys originals, swaps: the
  live sequence becomes `take p ++ x :: drop p`.
* No growth, `pos != end()`: builds the temporary `new_s`, move-constructs
  `data_[size_-1]` into slot `size_`, shifts `[p, size_-1)` one slot right
  (`move_backward`), move-assigns the temporary into slot `p`: the live
  sequence again becomes `take p ++ x :: drop p`.
* No growth, `pos == end()`: constructs `x` at `end()`.
Then `size_++` and `return begin() + position`; the second component is
that returned offset. -/
def Vector.Emplace (v : Vector α) (p : Nat) (x : α) : Vector α × Nat :=
  if v.cap ≤ v.elems.length then
    (⟨v.elems.take p ++ x :: v.elems.drop p,
      if v.elems.length = 0 then 1 else v.elems.length * 2⟩, p)
  else if p ≠ v.elems.length then
    (⟨v.elems.take p ++ x :: v.elems.drop p, v.cap⟩, p)
  else
    (⟨v.elems ++ [x], v.cap⟩, p)

/-- `iterator Insert(const_iterator pos, const T& value)` /
`iterator Insert(const_iterator pos, T&& value)`: both forward straight to
`Emplace(pos, value)`. -/
def Vector.Insert (v : Vector α) (p : Nat) (x : α) : Vector α × Nat :=
  v.Emplace p x

/-- `iterator Erase(const_iterator pos)` (lines 196-204); `p` is
`position = pos - begin()`.  Precondition: `p < size_`.  Moves
`[p+1, size_)` one slot left (`std::move`), destroys the vacated last slot,
decrements `size_`, returns `begin() + position` (second component). -/
def Vector.Erase (v : Vector α) (p : Nat) : Vector α × Nat :=
  (⟨v.elems.take p ++ v.elems.drop (p + 1), v.cap⟩, p)

/-- Copy of `std::copy(src.begin(), src.end(), dst-start)` into the front of
an existing constructed range: the first `srcSeg.length` positions take the
source values, the rest of `dst` is unchanged. -/
def listCopy (srcSeg dst : List α) : List α :=
  srcSeg ++ dst.drop srcSeg.length

/-- `Vector& operator=(const Vector& rhs)` (lines 229-249), success paths
(the `this != &rhs` self-assignment guard is the identity and not
modelled).
* `rhs.size_ > Capacity()`: `Vector rhs_copy(rhs); Swap(rhs_copy);` — the
  copy has capacity `rhs.size_` (copy constructor), and `rhs_copy`'s
  destructor then destroys the target's former `size_` elements.
* else, `size_ <= rhs.size_`: `std::copy` the first `size_` source elements
  over the live range, `uninitialized_copy_n` the remaining
  `rhs.size_ - size_` past it; no destructions.
* else (`size_ > rhs.size_`): `std::copy` all `rhs.size_` source elements
  over the front of the live range, `destroy_n` the
  `size_ - rhs.size_` excess tail elements.
Then `size_ = rhs.size_`.  Returns `(target after, number of element
destructions performed)`. -/
def Vector.CopyAssign (t s : Vector α) : Vector α × Nat :=
  if s.elems.length > t.cap then
    (⟨s.elems, s.elems.length⟩, t.elems.length)
  else if t.elems.length ≤ s.elems.length then
    (⟨listCopy (s.elems.take t.elems.length) t.elems ++ s.elems.drop t.elems.length,
      t.cap⟩, 0)
  else
    (⟨(listCopy s.elems t.elems).take s.elems.length, t.cap⟩,
      t.elems.length - s.elems.length)

/-- `void Swap(Vector& other) noexcept`: `data_.Swap(other.data_)` and
`swap(size_, other.size_)` — exchanges the two states. -/
def Vector.SwapOp (a b : Vector α) : Vector α × Vector α := (b, a)

/-! ### Fallible element transfer into a new buffer

The growth paths transfer the old elements into the freshly allocated
`RawMemory` with `std::uninitialized_copy_n` (taken when the element type is
copy-constructible but not nothrow-move-constructible — exactly the types
whose transfer can throw; the `uninitialized_move_n` branch is only taken
when the move constructor is `noexcept` or the type is not copyable).  We
instrument that call with a failure oracle `fails : Nat → Bool`: the copy
construction of the element at index `i` throws iff `fails i`. -/

/-- `std::uninitialized_copy_n(src, n, dst)` over raw storage, constructing
a copy of each element in order starting at index `i₀`.  If the copy of
element `i` throws, the standard requires the objects already constructed by
the call to be destroyed before the exception propagates; the error value
carries `(number of elements constructed, number destroyed during that
unwinding)`. -/
def uninitializedCopyN (fails : Nat → Bool) : Nat → List α → Except (Nat × Nat) (List α)
  | _, [] => .ok []
  | i, x :: xs =>
    if fails i then .error (i, i)
    else
      match uninitializedCopyN fails (i + 1) xs with
      | .ok rest => .ok (x :: rest)
      | .error e => .error e

/-- `Vector::Reserve` (lines 151-166) on the throwing-copy element type,
instrumented with the failure oracle.  On the growth path the source is:
`RawMemory<T> new_data(new_capacity);` then
`uninitialized_copy_n(data_.GetAddress(), size_, new_data.GetAddress());`
then `destroy_n` of the originals and `data_.Swap(new_data)`.  There is no
`try`/`catch`: if a copy throws, `uninitialized_copy_n` destroys the copies
it had constructed, `new_data`'s destructor releases the raw allocation
(destroying no elements — `RawMemory` never runs destructors), and the
exception propagates with `data_`/`size_` untouched.  The error value is
`(the vector state afterwards, the list of element objects constructed into
the abandoned new buffer and never destroyed)`. -/
def Vector.ReserveFallible (v : Vector α) (n : Nat) (fails : Nat → Bool) :
    Except (Vector α × List α) (Vector α) :=
  if n ≤ v.cap then .ok v
  else
    match uninitializedCopyN fails 0 v.elems with
    | .ok copied => .ok ⟨copied, n⟩
    | .error cd => .error (v, (v.elems.take cd.1).drop cd.2)

/-- `Vector::PushBack` (lines 277-302) on the throwing-copy element type,
instrumented as in `ReserveFallible`; `newElemFails` says whether the
construction of the new element itself throws.  On the growth path the
source constructs the new element at slot `size_` of the new buffer *first*
(`new (new_data.GetAddress() + size_) T(std::forward<Type>(value));`), then
runs `uninitialized_copy_n` for the old elements.  There is no
`try`/`catch`: if the transfer throws, `uninitialized_copy_n` destroys only
the copies it constructed itself, `new_data`'s destructor releases the raw
allocation without running any element destructor, and the already
constructed new element is never destroyed — it appears in the leaked list
of the error value.  `EmplaceBack` (lines 304-329) is line-for-line the
same control flow with `T(std::forward<Args>(args)...)` in place of
`T(std::forward<Type>(value))`, so this definition covers both. -/
def Vector.PushBackFallible (v : Vector α) (x : α) (newElemFails : Bool)
    (fails : Nat → Bool) : Except (Vector α × List α) (Vector α) :=
  if v.cap ≤ v.elems.length then
    if newElemFails then .error (v, [])
    else
      match uninitializedCopyN fails 0 v.elems with
      | .ok copied =>
          .ok ⟨copied ++ [x], if v.elems.length = 0 then 1 else v.elems.length * 2⟩
      | .error cd => .error (v, (v.elems.take cd.1).drop cd.2 ++ [x])
  else
    if newElemFails then .error (v, [])
    else .ok ⟨v.elems ++ [x], v.cap⟩

/-- `Vector::Emplace` (lines 331-379) on the throwing-copy element type,
instrumented as in `PushBackFallible`; `p` is `position = pos - begin()`.
On the growth path (`Capacity() <= size_`, lines 336-354) the source
allocates `RawMemory(size_ == 0 ? 1 : size_ * 2)`, constructs the new
element at slot `position` of the new buffer *first*
(`new (new_data.GetAddress() + position) T(std::forward<Args>(args)...)`),
then transfers the old elements with two separate calls:
`uninitialized_copy_n(data_.GetAddress(), position, new_data.GetAddress())`
for the prefix and
`uninitialized_copy_n(data_.GetAddress() + position, size_ - position,
new_data.GetAddress() + position + 1)` for the suffix.  There is no
`try`/`catch` around this branch, and each call destroys only the copies
it constructed itself before the exception propagates: a throw in the
prefix call leaks the already constructed new element, and a throw in the
suffix call leaks the prefix call's copies *and* the new element.
`fails i` says the copy of the source element at index `i` throws; the
suffix call starts at source index `p`.  The no-growth branch is modelled
only for a failing new-element (or temporary) construction, at which point
nothing has been constructed — the bogus `operator delete` its `catch`
handler then performs is the subject of `EmplaceTempThrow`; mid-shift
failures of the in-place path are the documented basic-guarantee
limitation outside this claim. -/
def Vector.EmplaceFallible (v : Vector α) (p : Nat) (x : α) (newElemFails : Bool)
    (fails : Nat → Bool) : Except (Vector α × List α) (Vector α × Nat) :=
  if v.cap ≤ v.elems.length then
    if newElemFails then .error (v, [])
    else
      match uninitializedCopyN fails 0 (v.elems.take p) with
      | .error cd => .error (v, ((v.elems.take p).take cd.1).drop cd.2 ++ [x])
      | .ok front =>
          match uninitializedCopyN fails p (v.elems.drop p) with
          | .error cd =>
              .error (v, front ++ [x] ++
                (((v.elems.drop p).take (cd.1 - p)).drop (cd.2 - p)))
          | .ok back =>
              .ok (⟨front ++ x :: back,
                if v.elems.length = 0 then 1 else v.elems.length * 2⟩, p)
  else
    if newElemFails then .error (v, [])
    else .ok (v.Emplace p x)

/-- `Vector::Emplace` (lines 331-379) on the no-growth path
(`Capacity() > size_`) with `pos != end()`, when the construction of the
temporary `T new_s(std::forward<Args>(args)...)` — the first statement of
the `try` block — throws.  At that point no element of the vector has been
constructed, destroyed, moved or assigned.  Control reaches the handler
`catch (...) { operator delete (end()); throw; }`, which passes
`end() = data_.GetAddress() + size_` to `operator delete` and rethrows.
Returns the vector state afterwards together with the offset (in element
slots) from the start of the owned buffer of the pointer passed to
`operator delete`; the only pointer into that region ever returned by an
allocation is the buffer base itself, offset 0. -/
def Vector.EmplaceTempThrow (v : Vector α) : Vector α × Nat :=
  (⟨v.elems, v.cap⟩, v.elems.length)

/-! ### Sequences of `PushBack` / `EmplaceBack` calls -/

/-- One call of a push sequence: `PushBack(value)` or
`EmplaceBack(args...)` constructing `value`. -/
inductive PushOp (α : Type) where
  | push (x : α)
  | emplaceBack (x : α)
  deriving DecidableEq, Repr

/-- Apply one `PushBack`/`EmplaceBack` call to a vector state. -/
def applyPush (v : Vector α) : PushOp α → Vector α
  | .push x => v.PushBack x
  | .emplaceBack x => (v.EmplaceBack x).1

/-- Run a sequence of `PushBack`/`EmplaceBack` calls from a
default-constructed (empty) vector. -/
def runPush (ops : List (PushOp α)) : Vector α :=
  ops.foldl applyPush Vector.empty

/-- States reachable through the public `Vector` operations: the
constructors, `Reserve`, `Resize`, `PushBack`, `EmplaceBack`, `PopBack`,
`Insert`, `Emplace`, `Erase`, both assignments and `Swap`, each under its
documented precondition (`PopBack` needs a nonempty vector, `Insert` /
`Emplace` a position in `[begin, end]`, `Erase` a dereferenceable position
in `[begin, end)`). -/
inductive Reachable [Inhabited α] : Vector α → Prop where
  | defaultCtor : Reachable Vector.empty
  | sizedCtor (n : Nat) : Reachable (Vector.Sized n)
  | copyCtor {v} : Reachable v → Reachable (Vector.CopyCtor v)
  | moveCtorNew {v} : Reachable v → Reachable (Vector.MoveCtor v).1
  | moveCtorSource {v} : Reachable v → Reachable (Vector.MoveCtor v).2.1
  | reserve {v} (n) : Reachable v → Reachable (v.Reserve n).1
  | resize {v} (n) : Reachable v → Reachable (v.Resize n).1
  | pushBack {v} (x) : Reachable v → Reachable (v.PushBack x)
  | emplaceBack {v} (x) : Reachable v → Reachable (v.EmplaceBack x).1
  | popBack {v} : Reachable v → 0 < v.Size → Reachable v.PopBack
  | insert {v} (p x) : Reachable v → p ≤ v.Size → Reachable (v.Insert p x).1
  | emplace {v} (p x) : Reachable v → p ≤ v.Size → Reachable (v.Emplace p x).1
  | erase {v} (p) : Reachable v → p < v.Size → Reachable (v.Erase p).1
  | copyAssign {t s} : Reachable t → Reachable s → Reachable (Vector.CopyAssign t s).1
  | moveAssignTarget {t s} : Reachable t → Reachable s → Reachable (Vector.MoveAssign t s).1
  | moveAssignSource {t s} : Reachable t → Reachable s → Reachable (Vector.MoveAssign t s).2.1
  | swapLeft {a b} : Reachable a → Reachable b → Reachable (Vector.SwapOp a b).1
  | swapRight {a b} : Reachable a → Reachable b → Reachable (Vector.SwapOp a b).2

/-! ### Helper lemmas -/

theorem applyPush_size (v : Vector α) (op : PushOp α) :
    (applyPush v op).Size = v.Size + 1 := by
  cases op <;>
    simp only [applyPush, Vector.PushBack, Vector.EmplaceBack, Vector.Size] <;>
    split <;> simp

theorem applyPush_cap_grow (v : Vector α) (op : PushOp α)
    (h : v.cap ≤ v.elems.length) :
    (applyPush v op).cap = if v.elems.length = 0 then 1 else v.elems.length * 2 := by
  cases op <;> simp [applyPush, Vector.PushBack, Vector.EmplaceBack, h]

theorem applyPush_cap_stay (v : Vector α) (op : PushOp α)
    (h : ¬ v.cap ≤ v.elems.length) :
    (applyPush v op).cap = v.cap := by
  cases op <;> simp [applyPush, Vector.PushBack, Vector.EmplaceBack, h]

theorem applyPush_inv (v : Vector α) (op : PushOp α) (h : v.Size ≤ v.Capacity) :
    (applyPush v op).Size ≤ (applyPush v op).Capacity := by
  have hs := applyPush_size v op
  simp only [Vector.Size, Vector.Capacity] at h hs ⊢
  rw [hs]
  by_cases hg : v.cap ≤ v.elems.length
  · rw [applyPush_cap_grow v op hg]
    split <;> omega
  · rw [applyPush_cap_stay v op hg]
    omega

theorem foldl_applyPush_size (ops : List (PushOp α)) :
    ∀ v : Vector α, (ops.foldl applyPush v).Size = v.Size + ops.length := by
  induction ops with
  | nil => intro v; simp
  | cons op rest ih =>
      intro v
      simp only [List.foldl_cons, List.length_cons, ih, applyPush_size]
      omega

theorem foldl_applyPush_inv (ops : List (PushOp α)) :
    ∀ v : Vector α, v.Size ≤ v.Capacity →
      (ops.foldl applyPush v).Size ≤ (ops.foldl applyPush v).Capacity := by
  induction ops with
  | nil => intro v h; simpa using h
  | cons op rest ih =>
      intro v h
      simpa using ih (applyPush v op) (applyPush_inv v op h)

theorem runPush_size (ops : List (PushOp α)) : (runPush ops).Size = ops.length := by
  simpa [runPush, Vector.empty, Vector.Size] using foldl_applyPush_size ops Vector.empty

theorem runPush_inv (ops : List (PushOp α)) :
    (runPush ops).Size ≤ (runPush ops).Capacity :=
  foldl_applyPush_inv ops Vector.empty (by simp [Vector.empty, Vector.Size, Vector.Capacity])

/-- Erasing slot `p` of the buffer obtained by placing `x` at slot `p`
between the first `p` and the remaining elements of `l` recovers `l`. -/
theorem insert_slots_erase (x : α) :
    ∀ (p : Nat) (l : List α), p ≤ l.length →
      (l.take p ++ x :: l.drop p).take p ++ (l.take p ++ x :: l.drop p).drop (p + 1) = l
  | 0, l, _ => by simp
  | p + 1, [], h => by simp at h
  | p + 1, a :: l, h => by
      simpa using insert_slots_erase x p l (Nat.le_of_succ_le_succ h)

/-- Slot `p` of the buffer obtained by placing `x` at slot `p` between the
first `p` and the remaining elements of `l` holds `x`. -/
theorem insert_slots_get (x : α) :
    ∀ (p : Nat) (l : List α), p ≤ l.length →
      (l.take p ++ x :: l.drop p)[p]? = some x
  | 0, l, _ => by simp
  | p + 1, [], h => by simp at h
  | p + 1, a :: l, h => by
      simpa using insert_slots_get x p l (Nat.le_of_succ_le_succ h)

/-- All three success branches of `Emplace` leave the live sequence
`take p ++ x :: drop p` (for `pos == end`, i.e. `p = size_`, that is
`elems ++ [x]`). -/
theorem Emplace_elems (v : Vector α) (p : Nat) (x : α) :
    (v.Emplace p x).1.elems = v.elems.take p ++ x :: v.elems.drop p := by
  unfold Vector.Emplace
  split
  · rfl
  · split
    · rfl
    · next h2 =>
        have hp : p = v.elems.length := by simpa using h2
        simp [hp]

theorem Emplace_size (v : Vector α) (p : Nat) (x : α) :
    (v.Emplace p x).1.elems.length = v.elems.length + 1 := by
  unfold Vector.Emplace
  split
  · simp only [List.length_append, List.length_take, List.length_cons, List.length_drop]
    omega
  · split
    · simp only [List.length_append, List.length_take, List.length_cons, List.length_drop]
      omega
    · simp

theorem Emplace_returns (v : Vector α) (p : Nat) (x : α) :
    (v.Emplace p x).2 = p := by
  unfold Vector.Emplace
  split
  · rfl
  · split <;> rfl

theorem Emplace_cap_grow (v : Vector α) (p : Nat) (x : α)
    (h : v.cap ≤ v.elems.length) :
    (v.Emplace p x).1.cap = if v.elems.length = 0 then 1 else v.elems.length * 2 := by
  simp [Vector.Emplace, h]

theorem Emplace_cap_stay (v : Vector α) (p : Nat) (x : α)
    (h : ¬ v.cap ≤ v.elems.length) :
    (v.Emplace p x).1.cap = v.cap := by
  unfold Vector.Emplace
  rw [if_neg h]
  split <;> rfl

/-- `uninitialized_copy_n` destroys, during unwinding, exactly the elements
it had constructed: the two components of the error value coincide. -/
theorem uninitializedCopyN_error_balanced (fails : Nat → Bool) :
    ∀ (i : Nat) (l : List α) (cd : Nat × Nat),
      uninitializedCopyN fails i l = .error cd → cd.1 = cd.2
  | i, [], cd => by simp [uninitializedCopyN]
  | i, x :: xs, cd => by
      unfold uninitializedCopyN
      split
      · intro h
        cases h
        rfl
      · cases hrec : uninitializedCopyN fails (i + 1) xs with
        | ok rest => simp
        | error e =>
            intro h
            cases h
            exact uninitializedCopyN_error_balanced fails (i + 1) xs cd hrec

theorem Reserve_elems (v : Vector α) (n : Nat) : (v.Reserve n).1.elems = v.elems := by
  unfold Vector.Reserve
  split <;> rfl

theorem Reserve_cap (v : Vector α) (n : Nat) :
    (v.Reserve n).1.cap = if n ≤ v.cap then v.cap else n := by
  unfold Vector.Reserve
  split <;> simp_all

/-- `uninitialized_copy_n` succeeds exactly when no copy throws, and then
the constructed range holds copies of the source values. -/
theorem uninitializedCopyN_ok (fails : Nat → Bool) :
    ∀ (i : Nat) (l : List α) (r : List α),
      uninitializedCopyN fails i l = .ok r → r = l
  | i, [], r => by
      unfold uninitializedCopyN
      intro h
      cases h
      rfl
  | i, x :: xs, r => by
      unfold uninitializedCopyN
      split
      · simp
      · cases hrec : uninitializedCopyN fails (i + 1) xs with
        | ok rest =>
            intro h
            cases h
            rw [uninitializedCopyN_ok fails (i + 1) xs rest hrec]
        | error e => simp

/-! ### Claim theorems -/

/-- **C1.** For every sequence of `PushBack`/`EmplaceBack` calls starting
from a default-constructed (empty) vector, the final length equals the
number of calls, and at each call where growth occurs (the code's
condition `Capacity() <= size_`) the new capacity equals
`max 1 (previous_capacity * 2)`, while the capacity is unchanged on calls
that do not grow. -/
theorem pushBack_sequence_length_capacity (ops : List (PushOp α)) :
    (runPush ops).Size = ops.length ∧
    ∀ (front : List (PushOp α)) (op : PushOp α) (rest : List (PushOp α)),
      ops = front ++ op :: rest →
      ((runPush front).Capacity ≤ (runPush front).Size →
        (applyPush (runPush front) op).Capacity = max 1 ((runPush front).Capacity * 2)) ∧
      ((runPush front).Size < (runPush front).Capacity →
        (applyPush (runPush front) op).Capacity = (runPush front).Capacity) := by
  refine ⟨runPush_size ops, ?_⟩
  intro front op rest _
  have hinv := runPush_inv front
  simp only [Vector.Size, Vector.Capacity] at hinv ⊢
  constructor
  · intro hgrow
    have hsz : (runPush front).elems.length = (runPush front).cap :=
      Nat.le_antisymm hinv hgrow
    rw [applyPush_cap_grow _ _ hgrow, hsz]
    rcases Nat.eq_zero_or_pos (runPush front).cap with h0 | h0
    · simp [h0]
    · rw [if_neg (by omega)]
      exact (Nat.max_eq_right (by omega)).symm
  · intro hstay
    exact applyPush_cap_stay _ _ (by omega)

/-- Witness for C1 on the spec's concrete scenario prefix: three pushes
from empty give length 3; the growth at the second call (state `[1]` with
capacity 1) doubles the capacity to `max 1 (1 * 2) = 2`. -/
theorem pushBack_sequence_length_capacity_witness :
    (runPush [PushOp.push (1 : Nat), PushOp.emplaceBack 2, PushOp.push 3]).Size = 3 ∧
    (applyPush (runPush [PushOp.push (1 : Nat)]) (PushOp.emplaceBack 2)).Capacity =
      max 1 ((runPush [PushOp.push (1 : Nat)]).Capacity * 2) :=
  ⟨(pushBack_sequence_length_capacity
      [PushOp.push (1 : Nat), PushOp.emplaceBack 2, PushOp.push 3]).1,
   ((pushBack_sequence_length_capacity
      [PushOp.push (1 : Nat), PushOp.emplaceBack 2, PushOp.push 3]).2
      [PushOp.push 1] (PushOp.emplaceBack 2) [PushOp.push 3] rfl).1 (by decide)⟩

/-- **C5.** For every vector, valid position `p` in `[begin, end]` and
value `x`, `Insert(p, x)` followed by `Erase` at position `p` restores the
original element sequence: same length and the same value at every
index. -/
theorem insert_erase_inverse (v : Vector α) (p : Nat) (x : α) (h : p ≤ v.Size) :
    (((v.Insert p x).1.Erase p).1).elems = v.elems ∧
    (((v.Insert p x).1.Erase p).1).Size = v.Size := by
  simp only [Vector.Size] at h ⊢
  have he : (((v.Insert p x).1.Erase p).1).elems = v.elems := by
    simp only [Vector.Insert, Vector.Erase]
    rw [Emplace_elems]
    exact insert_slots_erase x p v.elems h
  exact ⟨he, by rw [he]⟩

/-- Witness for C5: inserting 99 at position 1 of `[1, 2, 3]` (capacity 4)
and erasing position 1 restores `[1, 2, 3]` — the spec's concrete
scenario. -/
theorem insert_erase_inverse_witness :
    ((((⟨[1, 2, 3], 4⟩ : Vector Nat).Insert 1 99).1.Erase 1).1).elems = [1, 2, 3] ∧
    ((((⟨[1, 2, 3], 4⟩ : Vector Nat).Insert 1 99).1.Erase 1).1).Size =
      (⟨[1, 2, 3], 4⟩ : Vector Nat).Size :=
  insert_erase_inverse (⟨[1, 2, 3], 4⟩ : Vector Nat) 1 99 (by decide)

/-- **C7.** `Reserve(n)` with `n ≤ current capacity` is a no-op: the state
(capacity, length, all element values) is unchanged and no allocation is
performed. -/
theorem reserve_noop (v : Vector α) (n : Nat) (h : n ≤ v.Capacity) :
    v.Reserve n = (v, 0) := by
  simp only [Vector.Capacity] at h
  simp [Vector.Reserve, h]

/-- Witness for C7: `Reserve(2)` on a vector of one element with
capacity 3 changes nothing and allocates nothing. -/
theorem reserve_noop_witness :
    (⟨[5], 3⟩ : Vector Nat).Reserve 2 = (⟨[5], 3⟩, 0) :=
  reserve_noop (⟨[5], 3⟩ : Vector Nat) 2 (by decide)

/-- **C10.** For every valid position `p` in `[begin, end]`, a successful
`Emplace(pos, args...)` or `Insert(pos, v)` returns `begin() + p` where
`p` is the original offset of `pos`, and the element at that position is
the newly inserted one. -/
theorem emplace_insert_returned_iterator (v : Vector α) (p : Nat) (x : α)
    (h : p ≤ v.Size) :
    (v.Emplace p x).2 = p ∧ (v.Emplace p x).1.elems[p]? = some x ∧
    (v.Insert p x).2 = p ∧ (v.Insert p x).1.elems[p]? = some x := by
  simp only [Vector.Size] at h
  have hg : (v.Emplace p x).1.elems[p]? = some x := by
    rw [Emplace_elems]
    exact insert_slots_get x p v.elems h
  simp only [Vector.Insert]
  exact ⟨Emplace_returns v p x, hg, Emplace_returns v p x, hg⟩

/-- Witness for C10: inserting 99 at offset 1 of `[1, 2, 3]` (capacity 4)
returns offset 1, and slot 1 holds 99. -/
theorem emplace_insert_returned_iterator_witness :
    ((⟨[1, 2, 3], 4⟩ : Vector Nat).Emplace 1 99).2 = 1 ∧
    ((⟨[1, 2, 3], 4⟩ : Vector Nat).Emplace 1 99).1.elems[1]? = some 99 ∧
    ((⟨[1, 2, 3], 4⟩ : Vector Nat).Insert 1 99).2 = 1 ∧
    ((⟨[1, 2, 3], 4⟩ : Vector Nat).Insert 1 99).1.elems[1]? = some 99 :=
  emplace_insert_returned_iterator (⟨[1, 2, 3], 4⟩ : Vector Nat) 1 99 (by decide)

/-- **C6.** `Resize(n)` with `n < length` destroys exactly `length - n`
trailing elements and leaves the first `n` elements unchanged with
resulting length `n`; with `n > length` it appends `n - length`
default-constructed elements, leaves all pre-existing elements unchanged,
and the resulting length is `n`. -/
theorem resize_spec [Inhabited α] (v : Vector α) (n : Nat) :
    (n < v.Size →
      (v.Resize n).1.elems = v.elems.take n ∧
      (v.Resize n).1.Size = n ∧
      (v.Resize n).2 = v.Size - n) ∧
    (v.Size < n →
      (v.Resize n).1.elems = v.elems ++ List.replicate (n - v.Size) default ∧
      (v.Resize n).1.Size = n ∧
      (v.Resize n).2 = 0) := by
  constructor
  · intro h
    simp only [Vector.Size] at h ⊢
    unfold Vector.Resize
    rw [if_pos h]
    refine ⟨rfl, ?_, rfl⟩
    simp only [List.length_take]
    omega
  · intro h
    simp only [Vector.Size] at h ⊢
    unfold Vector.Resize
    rw [if_neg (by omega)]
    rw [Reserve_elems]
    refine ⟨rfl, ?_, rfl⟩
    simp only [List.length_append, List.length_replicate]
    omega

/-- Witness for C6: `[1, 2, 3]` with capacity 4 — `Resize(1)` keeps `[1]`
destroying two trailing elements; `Resize(5)` appends two
default-constructed (zero) elements. -/
theorem resize_spec_witness :
    (((⟨[1, 2, 3], 4⟩ : Vector Nat).Resize 1).1.elems = [1, 2, 3].take 1 ∧
      ((⟨[1, 2, 3], 4⟩ : Vector Nat).Resize 1).1.Size = 1 ∧
      ((⟨[1, 2, 3], 4⟩ : Vector Nat).Resize 1).2 = 3 - 1) ∧
    (((⟨[1, 2, 3], 4⟩ : Vector Nat).Resize 5).1.elems =
        [1, 2, 3] ++ List.replicate (5 - 3) default ∧
      ((⟨[1, 2, 3], 4⟩ : Vector Nat).Resize 5).1.Size = 5 ∧
      ((⟨[1, 2, 3], 4⟩ : Vector Nat).Resize 5).2 = 0) :=
  ⟨(resize_spec (⟨[1, 2, 3], 4⟩ : Vector Nat) 1).1 (by decide),
   (resize_spec (⟨[1, 2, 3], 4⟩ : Vector Nat) 5).2 (by decide)⟩

/-- **C8.** Copy-assignment from a source strictly shorter than the target
(and fitting in the target's capacity) takes the in-place branch: it
destroys the `target length - source length` excess tail elements, the
resulting length equals the source length, and every position in
`[0, source length)` holds the source's value. -/
theorem copy_assign_shorter_source (t s : Vector α)
    (hlen : s.Size < t.Size) (hcap : s.Size ≤ t.Capacity) :
    (Vector.CopyAssign t s).1.elems = s.elems ∧
    (Vector.CopyAssign t s).1.Size = s.Size ∧
    (Vector.CopyAssign t s).2 = t.Size - s.Size ∧
    ∀ i, i < s.Size → (Vector.CopyAssign t s).1.elems[i]? = s.elems[i]? := by
  simp only [Vector.Size, Vector.Capacity] at hlen hcap ⊢
  unfold Vector.CopyAssign
  rw [if_neg (by omega), if_neg (by omega)]
  have helems : (listCopy s.elems t.elems).take s.elems.length = s.elems := by
    unfold listCopy
    exact List.take_left s.elems (t.elems.drop s.elems.length)
  refine ⟨helems, ?_, rfl, ?_⟩
  · rw [helems]
  · intro i _
    rw [helems]

/-- Witness for C8: assigning `[9]` (length 1) into `[1, 2, 3]`
(length 3, capacity 4) destroys two tail elements and leaves `[9]`. -/
theorem copy_assign_shorter_source_witness :
    (Vector.CopyAssign (⟨[1, 2, 3], 4⟩ : Vector Nat) ⟨[9], 1⟩).1.elems = [9] ∧
    (Vector.CopyAssign (⟨[1, 2, 3], 4⟩ : Vector Nat) ⟨[9], 1⟩).1.Size =
      (⟨[9], 1⟩ : Vector Nat).Size ∧
    (Vector.CopyAssign (⟨[1, 2, 3], 4⟩ : Vector Nat) ⟨[9], 1⟩).2 =
      (⟨[1, 2, 3], 4⟩ : Vector Nat).Size - (⟨[9], 1⟩ : Vector Nat).Size ∧
    ∀ i, i < (⟨[9], 1⟩ : Vector Nat).Size →
      (Vector.CopyAssign (⟨[1, 2, 3], 4⟩ : Vector Nat) ⟨[9], 1⟩).1.elems[i]? =
        ([9] : List Nat)[i]? :=
  copy_assign_shorter_source (⟨[1, 2, 3], 4⟩ : Vector Nat) ⟨[9], 1⟩
    (by decide) (by decide)

/-- **C4, counterexample.** Move-assignment is implemented as `Swap(rhs)`:
after `t = move(s)` with `t = [1, 2]` (capacity 2) and `s = [3]`
(capacity 1), the moved-from source holds the target's former two elements
— its length is 2, not 0 as the claim states. -/
theorem move_assign_source_nonzero :
    ((Vector.MoveAssign (⟨[1, 2], 2⟩ : Vector Nat) ⟨[3], 1⟩).2.1).Size = 2 ∧
      (2 : Nat) ≠ 0 := by
  exact ⟨rfl, by decide⟩

/-- **C4, amended.** Neither move-construction nor move-assignment performs
any element copy.  Move-construction leaves the moved-from source empty
(zero length and zero capacity); move-assignment swaps, so the moved-from
source ends up holding the target's former elements and capacity (zero
length only when the target was empty). -/
theorem move_no_copies (t s : Vector α) :
    (Vector.MoveCtor s).2.2 = 0 ∧
    (Vector.MoveCtor s).1 = ⟨s.elems, s.cap⟩ ∧
    (Vector.MoveCtor s).2.1.Size = 0 ∧
    (Vector.MoveAssign t s).2.2 = 0 ∧
    (Vector.MoveAssign t s).1 = ⟨s.elems, s.cap⟩ ∧
    (Vector.MoveAssign t s).2.1 = ⟨t.elems, t.cap⟩ :=
  ⟨rfl, rfl, rfl, rfl, rfl, rfl⟩

/-- **C3 (code bug).** On the no-growth path with `pos != end()` (here a
two-element vector with capacity 4, `pos = begin() + 1`), if the
construction of the temporary `new_s` throws, the `catch` handler executes
`operator delete (end())`: the pointer passed is the buffer base plus
offset `size_ = 2`, not the allocation base (offset 0) — it deallocates a
pointer that no allocation ever returned, rather than leaving everything
untouched as the claim requires. -/
theorem emplace_temp_throw_invalid_delete :
    (Vector.EmplaceTempThrow (⟨[10, 20], 4⟩ : Vector Nat)).2 = 2 ∧
      (2 : Nat) ≠ 0 :=
  ⟨rfl, by decide⟩

/-- **C2, counterexample.** `PushBack(7)` on a full vector `[0]`
(capacity 1) with an element type whose copy constructor throws on the
first transferred element: the new element 7 was already constructed into
the new buffer (before the transfer, as the code does), and since
`PushBack` has no `try`/`catch` and `RawMemory`'s destructor runs no
element destructors, that element is never destroyed — the leaked list is
`[7]`, not empty, contradicting "every element already constructed into
the new buffer before the failure is destroyed". The original vector state
is intact. -/
theorem pushBack_grow_transfer_leak :
    Vector.PushBackFallible (⟨[0], 1⟩ : Vector Nat) 7 false (fun i => i == 0) =
      .error (⟨[0], 1⟩, [7]) ∧ ([7] : List Nat) ≠ [] :=
  ⟨rfl, by decide⟩

/-- **C2, amended.** If an element copy fails during a reallocation-based
growth (`Reserve`, or `PushBack`/`EmplaceBack`/`Emplace` when capacity is
exhausted), the original vector state (length, capacity and all element
values) is fully intact afterward.  Each `uninitialized_copy_n` call
destroys exactly the elements it itself constructed, but elements
constructed into the new buffer *before* the failing call are never
destroyed: `Reserve` leaks nothing; `PushBack`/`EmplaceBack` leak nothing
(when the new element's own construction failed) or exactly the
pre-constructed new element (when the transfer failed); `Emplace` leaks
nothing, exactly the new element (prefix transfer failed), or the prefix
segment's copies together with the new element (suffix transfer
failed). -/
theorem grow_failure_rollback (v : Vector α) (n p : Nat) (x : α) (nf : Bool)
    (fails : Nat → Bool) (w w2 w3 : Vector α) (lk lk2 lk3 : List α) :
    (Vector.ReserveFallible v n fails = .error (w, lk) → w = v ∧ lk = []) ∧
    (Vector.PushBackFallible v x nf fails = .error (w2, lk2) →
      w2 = v ∧ (lk2 = [] ∨ lk2 = [x])) ∧
    (Vector.EmplaceFallible v p x nf fails = .error (w3, lk3) →
      w3 = v ∧ (lk3 = [] ∨ lk3 = [x] ∨ lk3 = v.elems.take p ++ [x])) := by
  refine ⟨?_, ?_, ?_⟩
  · intro h
    unfold Vector.ReserveFallible at h
    split at h
    · cases h
    · cases hcp : uninitializedCopyN fails 0 v.elems with
      | ok r => rw [hcp] at h; cases h
      | error cd =>
          rw [hcp] at h
          have hb := uninitializedCopyN_error_balanced fails 0 v.elems cd hcp
          cases h
          refine ⟨rfl, ?_⟩
          rw [← hb]
          apply List.drop_eq_nil_of_le
          simp only [List.length_take]
          omega
  · intro h
    unfold Vector.PushBackFallible at h
    split at h
    · split at h
      · cases h
        exact ⟨rfl, Or.inl rfl⟩
      · cases hcp : uninitializedCopyN fails 0 v.elems with
        | ok r => rw [hcp] at h; cases h
        | error cd =>
            rw [hcp] at h
            have hb := uninitializedCopyN_error_balanced fails 0 v.elems cd hcp
            cases h
            refine ⟨rfl, Or.inr ?_⟩
            have hnil : ((v.elems.take cd.1).drop cd.2) = [] := by
              rw [← hb]
              apply List.drop_eq_nil_of_le
              simp only [List.length_take]
              omega
            rw [hnil]
            rfl
    · split at h
      · cases h
        exact ⟨rfl, Or.inl rfl⟩
      · cases h
  · intro h
    unfold Vector.EmplaceFallible at h
    split at h
    · split at h
      · cases h
        exact ⟨rfl, Or.inl rfl⟩
      · cases hcp1 : uninitializedCopyN fails 0 (v.elems.take p) with
        | error cd =>
            rw [hcp1] at h
            have hb := uninitializedCopyN_error_balanced fails 0 (v.elems.take p) cd hcp1
            cases h
            refine ⟨rfl, Or.inr (Or.inl ?_)⟩
            have hnil : (((v.elems.take p).take cd.1).drop cd.2) = [] := by
              rw [← hb]
              apply List.drop_eq_nil_of_le
              simp only [List.length_take]
              omega
            rw [hnil]
            rfl
        | ok front =>
            rw [hcp1] at h
            cases hcp2 : uninitializedCopyN fails p (v.elems.drop p) with
            | ok back => rw [hcp2] at h; cases h
            | error cd =>
                rw [hcp2] at h
                have hb := uninitializedCopyN_error_balanced fails p (v.elems.drop p) cd hcp2
                have hfr := uninitializedCopyN_ok fails 0 (v.elems.take p) front hcp1
                cases h
                refine ⟨rfl, Or.inr (Or.inr ?_)⟩
                have hnil : (((v.elems.drop p).take (cd.1 - p)).drop (cd.2 - p)) = [] := by
                  rw [← hb]
                  apply List.drop_eq_nil_of_le
                  simp only [List.length_take]
                  omega
                rw [hfr, hnil]
                simp
    · split at h
      · cases h
        exact ⟨rfl, Or.inl rfl⟩
      · cases h

/-- Witness for the amended C2: `Reserve(2)` from `[0]` (capacity 1) with
the copy of element 0 failing leaves the state intact with nothing leaked;
`PushBack(7)` on the same state and failure leaks exactly the
pre-constructed new element; `Emplace` at position 1 of the full vector
`[4, 5]` (capacity 2) with the suffix-segment copy (source index 1)
failing leaks the prefix copy 4 together with the new element 9, the
state again intact. -/
theorem grow_failure_rollback_witness :
    ((⟨[0], 1⟩ : Vector Nat) = ⟨[0], 1⟩ ∧ ([] : List Nat) = []) ∧
    ((⟨[0], 1⟩ : Vector Nat) = ⟨[0], 1⟩ ∧
      (([7] : List Nat) = [] ∨ ([7] : List Nat) = [7])) ∧
    ((⟨[4, 5], 2⟩ : Vector Nat) = ⟨[4, 5], 2⟩ ∧
      (([4, 9] : List Nat) = [] ∨ ([4, 9] : List Nat) = [9] ∨
        ([4, 9] : List Nat) = [4, 5].take 1 ++ [9])) :=
  ⟨(grow_failure_rollback (⟨[0], 1⟩ : Vector Nat) 2 0 7 false (fun i => i == 0)
      ⟨[0], 1⟩ ⟨[0], 1⟩ ⟨[0], 1⟩ [] [7] []).1 rfl,
   (grow_failure_rollback (⟨[0], 1⟩ : Vector Nat) 2 0 7 false (fun i => i == 0)
      ⟨[0], 1⟩ ⟨[0], 1⟩ ⟨[0], 1⟩ [] [7] []).2.1 rfl,
   (grow_failure_rollback (⟨[4, 5], 2⟩ : Vector Nat) 0 1 9 false (fun i => i == 1)
      ⟨[4, 5], 2⟩ ⟨[4, 5], 2⟩ ⟨[4, 5], 2⟩ [] [] [4, 9]).2.2 rfl⟩

/-- **C9.** Every vector state reachable through the public operations
satisfies `size_ ≤ capacity_` of its owned buffer. -/
theorem reachable_size_le_capacity [Inhabited α] {v : Vector α}
    (h : Reachable v) : v.Size ≤ v.Capacity := by
  induction h with
  | defaultCtor => simp [Vector.empty, Vector.Size, Vector.Capacity]
  | sizedCtor n => simp [Vector.Sized, Vector.Size, Vector.Capacity]
  | copyCtor _ _ => simp [Vector.CopyCtor, Vector.Size, Vector.Capacity]
  | moveCtorNew _ ih => simpa [Vector.MoveCtor, Vector.Size, Vector.Capacity] using ih
  | moveCtorSource _ _ => simp [Vector.MoveCtor, Vector.Size, Vector.Capacity]
  | reserve n _ ih =>
      rename_i w _
      simp only [Vector.Size, Vector.Capacity] at ih ⊢
      rw [Reserve_elems, Reserve_cap]
      split <;> omega
  | resize n _ ih =>
      rename_i w _
      simp only [Vector.Size, Vector.Capacity] at ih ⊢
      unfold Vector.Resize
      split
      · simp only [List.length_take]
        omega
      · rw [Reserve_elems, Reserve_cap]
        simp only [List.length_append, List.length_replicate]
        split <;> omega
  | pushBack x _ ih =>
      rename_i w _
      simp only [Vector.Size, Vector.Capacity] at ih ⊢
      unfold Vector.PushBack
      split <;> simp only [List.length_append, List.length_cons, List.length_nil]
      · split <;> omega
      · omega
  | emplaceBack x _ ih =>
      rename_i w _
      simp only [Vector.Size, Vector.Capacity] at ih ⊢
      unfold Vector.EmplaceBack
      split <;> simp only [List.length_append, List.length_cons, List.length_nil]
      · split <;> omega
      · omega
  | popBack _ _ ih =>
      rename_i w _
      simp only [Vector.Size, Vector.Capacity, Vector.PopBack] at ih ⊢
      simp only [List.length_dropLast]
      omega
  | insert p x _ _ ih =>
      rename_i w _ _
      simp only [Vector.Size, Vector.Capacity, Vector.Insert] at ih ⊢
      have hs := Emplace_size w p x
      rw [hs]
      by_cases hg : w.cap ≤ w.elems.length
      · rw [Emplace_cap_grow w p x hg]
        split <;> omega
      · rw [Emplace_cap_stay w p x hg]
        omega
  | emplace p x _ _ ih =>
      rename_i w _ _
      simp only [Vector.Size, Vector.Capacity] at ih ⊢
      have hs := Emplace_size w p x
      rw [hs]
      by_cases hg : w.cap ≤ w.elems.length
      · rw [Emplace_cap_grow w p x hg]
        split <;> omega
      · rw [Emplace_cap_stay w p x hg]
        omega
  | erase p _ hp ih =>
      rename_i w _
      simp only [Vector.Size, Vector.Capacity, Vector.Erase] at ih hp ⊢
      simp only [List.length_append, List.length_take, List.length_drop]
      omega
  | copyAssign _ _ iht ihs =>
      rename_i t s _ _
      simp only [Vector.Size, Vector.Capacity] at iht ihs ⊢
      unfold Vector.CopyAssign
      split
      · simp
      · split
        · simp only [listCopy, List.length_append, List.length_take, List.length_drop]
          omega
        · simp only [listCopy, List.length_take, List.length_append, List.length_drop]
          omega
  | moveAssignTarget _ _ iht ihs =>
      rename_i t s _ _
      simpa [Vector.MoveAssign, Vector.Size, Vector.Capacity] using ihs
  | moveAssignSource _ _ iht ihs =>
      rename_i t s _ _
      simpa [Vector.MoveAssign, Vector.Size, Vector.Capacity] using iht
  | swapLeft _ _ iha ihb =>
      simpa [Vector.SwapOp] using ihb
  | swapRight _ _ iha ihb =>
      simpa [Vector.SwapOp] using iha

/-- Witness for C9: the state reached by one `PushBack(5)` on a
default-constructed vector satisfies the invariant. -/
theorem reachable_size_le_capacity_witness :
    ((Vector.empty : Vector Nat).PushBack 5).Size ≤
      ((Vector.empty : Vector Nat).PushBack 5).Capacity :=
  reachable_size_le_capacity (Reachable.pushBack 5 Reachable.defaultCtor)

end AdvVector
